import Mathlib

/-!
# Command-to-actuator control loop (src/main.cpp)

A shallow embedding of the shared command state (class Platform), the message
ingress handler (callback::message_arrived), the reconnect protocol
(callback::on_failure, callback::connection_lost, callback::reconnect) and the
actuator control loop (gpioControl), followed by the properties proved about them.

A std::string is represented by a Lean String; the code only copies command
strings and compares them for equality with two-character literals.
-/

namespace BB

/-! ## Hardware pins -/

/-- Level of a digital output line. -/
inductive Level where
  | Low
  | High
deriving DecidableEq, Repr

/-- The four output lines driven by gpioControl (main.cpp:318-377). -/
inductive Pin where
  | GPIOH0
  | GPIOH1
  | GPIOH2
  | GPIOH3
deriving DecidableEq, Repr

/-- Levels of the four output lines: pin A = GPIOH0, B = GPIOH1, C = GPIOH2, D = GPIOH3. -/
structure Pins where
  h0 : Level
  h1 : Level
  h2 : Level
  h3 : Level
deriving DecidableEq, Repr

/-- Modelled from the spec: the hardware-pin capability setPin(handle, pinId, level)
of the external pin driver (mpsse.h is not part of the sources); it drives one
line to the given level and leaves the other three lines as they are. -/
def setPin (io_ : Pins) (pin : Pin) (level : Level) : Pins :=
  match pin with
  | Pin.GPIOH0 => { io_ with h0 := level }
  | Pin.GPIOH1 => { io_ with h1 := level }
  | Pin.GPIOH2 => { io_ with h2 := level }
  | Pin.GPIOH3 => { io_ with h3 := level }

/-- Driver call PinLow(io, pin). -/
def PinLow (io_ : Pins) (pin : Pin) : Pins := setPin io_ pin Level.Low

/-- Driver call PinHigh(io, pin). -/
def PinHigh (io_ : Pins) (pin : Pin) : Pins := setPin io_ pin Level.High

/-! ## Shared command state: class Platform (main.cpp:69-137) -/

/-- Private members of Platform (main.cpp:133-136). -/
structure Platform where
  enginesCommandNow : String
  enginesCommandLast : String
  enginesNow : String
  engineCommandFlag : Bool
deriving DecidableEq, Repr

namespace Platform

/-- Constructor Platform() (main.cpp:122). -/
def Instance : Platform :=
  { enginesCommandLast := "OO", enginesCommandNow := "OO", enginesNow := "OO",
    engineCommandFlag := false }

/-- Method setEnginesCommand (main.cpp:88-93). -/
def setEnginesCommand (p : Platform) (command : String) : Platform :=
  let p1 := { p with enginesCommandLast := p.enginesCommandNow }
  { p1 with enginesCommandNow := command }

/-- Method setEngines (main.cpp:96-100). -/
def setEngines (p : Platform) (command : String) : Platform :=
  { p with enginesNow := command }

/-- Method getEngineCommandNow (main.cpp:102-105). -/
def getEngineCommandNow (p : Platform) : String := p.enginesCommandNow

/-- Method getEngineCommandLast (main.cpp:107-110). -/
def getEngineCommandLast (p : Platform) : String := p.enginesCommandLast

/-- Method engineCommandArrived (main.cpp:112-115). -/
def engineCommandArrived (p : Platform) (arrived : Bool) : Platform :=
  { p with engineCommandFlag := arrived }

/-- Method getEngineCommandFlag (main.cpp:117-120). -/
def getEngineCommandFlag (p : Platform) : Bool := p.engineCommandFlag

end Platform

/-! ## Actuator control loop: gpioControl (main.cpp:301-385) -/

/-- The if/else chain of gpioControl (main.cpp:317-368): the pin writes performed
for a command, in source order. `command.compare(lit)` is zero exactly when the
command equals the literal. -/
def commandPins (io_ : Pins) (command : String) : Pins :=
  if command = "OO" then
    PinLow (PinLow (PinLow (PinLow io_ Pin.GPIOH0) Pin.GPIOH1) Pin.GPIOH2) Pin.GPIOH3
  else if command = "FF" then
    PinHigh (PinHigh (PinLow (PinLow io_ Pin.GPIOH0) Pin.GPIOH2) Pin.GPIOH1) Pin.GPIOH3
  else if command = "FO" then
    PinHigh (PinLow (PinLow (PinLow io_ Pin.GPIOH0) Pin.GPIOH2) Pin.GPIOH3) Pin.GPIOH1
  else if command = "FR" then
    PinHigh (PinHigh (PinLow (PinLow io_ Pin.GPIOH0) Pin.GPIOH3) Pin.GPIOH1) Pin.GPIOH2
  else if command = "OR" then
    PinHigh (PinLow (PinLow (PinLow io_ Pin.GPIOH0) Pin.GPIOH1) Pin.GPIOH3) Pin.GPIOH2
  else if command = "RR" then
    PinHigh (PinHigh (PinLow (PinLow io_ Pin.GPIOH1) Pin.GPIOH3) Pin.GPIOH0) Pin.GPIOH2
  else if command = "RO" then
    PinHigh (PinLow (PinLow (PinLow io_ Pin.GPIOH2) Pin.GPIOH3) Pin.GPIOH1) Pin.GPIOH0
  else if command = "RF" then
    PinHigh (PinHigh (PinLow (PinLow io_ Pin.GPIOH1) Pin.GPIOH2) Pin.GPIOH0) Pin.GPIOH3
  else if command = "OF" then
    PinHigh (PinLow (PinLow (PinLow io_ Pin.GPIOH0) Pin.GPIOH1) Pin.GPIOH2) Pin.GPIOH3
  else
    PinLow (PinLow (PinLow (PinLow io_ Pin.GPIOH0) Pin.GPIOH1) Pin.GPIOH2) Pin.GPIOH3

/-- The pin writes of the timeout branch (main.cpp:374-377). -/
def timeoutPins (io_ : Pins) : Pins :=
  PinLow (PinLow (PinLow (PinLow io_ Pin.GPIOH0) Pin.GPIOH1) Pin.GPIOH2) Pin.GPIOH3

/-- What the control loop owns and shares: the Platform singleton and the pin levels. -/
structure World where
  platform : Platform
  pins : Pins
deriving DecidableEq, Repr

/-- State at the start of the loop: a fresh Platform and the given pin levels. -/
def World.initial (pins : Pins) : World := { platform := Platform.Instance, pins := pins }

/-- Result of `commandCv.wait_for(lock, 250ms, pred)` (main.cpp:312): the value of
the predicate `getEngineCommandFlag()` at its last evaluation, true when the
loop was woken by an arrived command and false when the window elapsed. -/
def wait_for (w : World) : Bool := w.platform.getEngineCommandFlag

/-- Branch taken when the wait reports an arrived command (main.cpp:313-370). -/
def wokenBranch (w : World) : World :=
  let p1 := w.platform.engineCommandArrived false
  let command := p1.getEngineCommandNow
  let pins1 := commandPins w.pins command
  { platform := p1.setEngines command, pins := pins1 }

/-- Branch taken when the wait times out (main.cpp:372-378). -/
def timeoutBranch (w : World) : World :=
  let p1 := w.platform.engineCommandArrived false
  let pins1 := timeoutPins w.pins
  { platform := p1.setEngines "OO", pins := pins1 }

/-- One iteration of the `while(!stopApp)` loop of gpioControl (main.cpp:310-380),
run without any other thread stepping in between. -/
def gpioControlIteration (w : World) : World :=
  if wait_for w then wokenBranch w else timeoutBranch w

/-! ## Message ingress: callback::message_arrived (main.cpp:247-255) -/

/-- Handler message_arrived: store the payload, raise the flag (the notify_all
that follows changes no state). -/
def message_arrived (w : World) (payload : String) : World :=
  let p1 := w.platform.setEnginesCommand payload
  { w with platform := p1.engineCommandArrived true }

/-! ## Interleaved execution of the two threads

Every Platform method holds commandMutex for its whole body, so each call is one
atomic step on the shared fields. The pins and enginesNow are written by the
control loop alone. The handler never takes engineMutex, so its statements may
run between any two statements of the loop. -/

/-- The statements the two threads execute on the shared state, the condition
variable and the pins, each with the value it passes or obtains. -/
inductive Op where
  | setEnginesCommand (command : String)
  | engineCommandArrived (arrived : Bool)
  | notify_all
  | wait_for (woken : Bool)
  | getEngineCommandNow (command : String)
  | pinWrites (levels : Pins)
  | setEngines (command : String)
deriving DecidableEq, Repr

/-- Position of the control-loop thread inside the loop body of gpioControl. -/
inductive ControlPc where
  | waiting
  | wokenClear
  | wokenRead
  | wokenPins (command : String)
  | wokenRecord (command : String)
  | timeoutClear
  | timeoutPins
  | timeoutRecord
deriving DecidableEq, Repr

/-- Position of the transport's callback thread inside message_arrived. -/
inductive IngressPc where
  | idle
  | raiseFlag (payload : String)
  | notify (payload : String)
deriving DecidableEq, Repr

/-- Both threads together: shared state and pins, the two program positions,
and for each thread the statements it has executed so far, oldest first. -/
structure System where
  world : World
  control : ControlPc
  ingress : IngressPc
  controlLog : List Op
  ingressLog : List Op
deriving DecidableEq, Repr

/-- Loop about to wait, handler idle, nothing executed yet. -/
def System.start (w : World) : System :=
  { world := w, control := ControlPc.waiting, ingress := IngressPc.idle,
    controlLog := [], ingressLog := [] }

/-- What the scheduler lets happen next: the transport calls message_arrived with
a payload (its first statement, main.cpp:252, runs), the handler runs its next
statement, or the control loop runs its next statement. -/
inductive Action where
  | deliver (payload : String)
  | handler
  | loop
deriving DecidableEq, Repr

/-- Next statement of the control loop (main.cpp:312-378). -/
def controlStep (s : System) : System :=
  match s.control with
  | ControlPc.waiting =>
      let woken := s.world.platform.getEngineCommandFlag
      { s with control := if woken then ControlPc.wokenClear else ControlPc.timeoutClear,
               controlLog := s.controlLog ++ [Op.wait_for woken] }
  | ControlPc.wokenClear =>
      { s with world := { s.world with platform := s.world.platform.engineCommandArrived false },
               control := ControlPc.wokenRead,
               controlLog := s.controlLog ++ [Op.engineCommandArrived false] }
  | ControlPc.wokenRead =>
      let command := s.world.platform.getEngineCommandNow
      { s with control := ControlPc.wokenPins command,
               controlLog := s.controlLog ++ [Op.getEngineCommandNow command] }
  | ControlPc.wokenPins command =>
      let pins1 := commandPins s.world.pins command
      { s with world := { s.world with pins := pins1 },
               control := ControlPc.wokenRecord command,
               controlLog := s.controlLog ++ [Op.pinWrites pins1] }
  | ControlPc.wokenRecord command =>
      { s with world := { s.world with platform := s.world.platform.setEngines command },
               control := ControlPc.waiting,
               controlLog := s.controlLog ++ [Op.setEngines command] }
  | ControlPc.timeoutClear =>
      { s with world := { s.world with platform := s.world.platform.engineCommandArrived false },
               control := ControlPc.timeoutPins,
               controlLog := s.controlLog ++ [Op.engineCommandArrived false] }
  | ControlPc.timeoutPins =>
      let pins1 := timeoutPins s.world.pins
      { s with world := { s.world with pins := pins1 },
               control := ControlPc.timeoutRecord,
               controlLog := s.controlLog ++ [Op.pinWrites pins1] }
  | ControlPc.timeoutRecord =>
      { s with world := { s.world with platform := s.world.platform.setEngines "OO" },
               control := ControlPc.waiting,
               controlLog := s.controlLog ++ [Op.setEngines "OO"] }

/-- The transport invokes message_arrived (main.cpp:247-252); callbacks are
delivered one at a time, so nothing happens while the handler is still running. -/
def deliverStep (s : System) (payload : String) : System :=
  match s.ingress with
  | IngressPc.idle =>
      { s with world := { s.world with platform := s.world.platform.setEnginesCommand payload },
               ingress := IngressPc.raiseFlag payload,
               ingressLog := s.ingressLog ++ [Op.setEnginesCommand payload] }
  | _ => s

/-- Next statement of a running message_arrived (main.cpp:253-254). -/
def handlerStep (s : System) : System :=
  match s.ingress with
  | IngressPc.idle => s
  | IngressPc.raiseFlag payload =>
      { s with world := { s.world with platform := s.world.platform.engineCommandArrived true },
               ingress := IngressPc.notify payload,
               ingressLog := s.ingressLog ++ [Op.engineCommandArrived true] }
  | IngressPc.notify _ =>
      { s with ingress := IngressPc.idle,
               ingressLog := s.ingressLog ++ [Op.notify_all] }

/-- One scheduled step. -/
def step (s : System) : Action → System
  | Action.deliver payload => deliverStep s payload
  | Action.handler => handlerStep s
  | Action.loop => controlStep s

/-- Execution of a schedule from a state. -/
def run (s : System) (schedule : List Action) : System := schedule.foldl step s

/-! ## Reconnect protocol: class callback (main.cpp:181-262) -/

/-- Constant N_RETRY_ATTEMPTS (main.cpp:60). -/
def N_RETRY_ATTEMPTS : Int := 5

/-- Member nretry_ of class callback, with a count of the connect requests the
callback has submitted. The counter stays far below the range of a C++ int in
every execution considered here, so it is an unbounded integer. -/
structure callback where
  nretry_ : Int
  connectRequests : Nat
deriving DecidableEq, Repr

/-- The process either keeps running with its callback object or has called exit. -/
inductive Process where
  | running (cb : callback)
  | exited (code : Nat)
deriving DecidableEq, Repr

/-- Method reconnect (main.cpp:200-209). The flag tells whether cli_.connect
accepted the request; when it throws instead, the handler calls exit(1). -/
def callback.reconnect (cb : callback) (accepted : Bool) : Process :=
  if accepted then Process.running { cb with connectRequests := cb.connectRequests + 1 }
  else Process.exited 1

/-- Method on_failure (main.cpp:212-217). -/
def callback.on_failure (cb : callback) (accepted : Bool) : Process :=
  let cb1 := { cb with nretry_ := cb.nretry_ + 1 }
  if cb1.nretry_ > N_RETRY_ATTEMPTS then Process.exited 1
  else cb1.reconnect accepted

/-- Method connection_lost (main.cpp:236-244). -/
def callback.connection_lost (cb : callback) (accepted : Bool) : Process :=
  ({ cb with nretry_ := 0 }).reconnect accepted

/-- A run of consecutive connection failures reported to on_failure, one entry
per failure saying whether the connect request it issues is accepted. -/
def reportFailures : Process → List Bool → Process
  | p, [] => p
  | Process.exited code, _ :: _ => Process.exited code
  | Process.running cb, accepted :: rest => reportFailures (cb.on_failure accepted) rest

/-- Connection lost, then k consecutive failures, every connect request accepted. -/
def lostThenFailures (cb : callback) (k : Nat) : Process :=
  reportFailures (cb.connection_lost true) (List.replicate k true)

/-- Submission of one command: the message arrives, then the control loop runs
one iteration. -/
def submit (w : World) (token : String) : World :=
  gpioControlIteration (message_arrived w token)

/-- The state once command "FF" has arrived on a fresh Platform and been applied. -/
def afterFF : World := submit (World.initial ⟨Level.High, Level.Low, Level.High, Level.Low⟩) "FF"

/-- Command "XX" has arrived on a fresh Platform, all four lines high, not yet applied. -/
def arrivedXX : World :=
  message_arrived (World.initial ⟨Level.High, Level.High, Level.High, Level.High⟩) "XX"

/-- All four lines low: the fail-safe pattern. -/
def allLow : Pins := { h0 := Level.Low, h1 := Level.Low, h2 := Level.Low, h3 := Level.Low }

/-- The rows of the mapping table as the specification lists them (pins A, B, C, D). -/
def mappingRows : List (String × Pins) :=
  [ ("OO", ⟨Level.Low, Level.Low, Level.Low, Level.Low⟩),
    ("FF", ⟨Level.Low, Level.High, Level.Low, Level.High⟩),
    ("FO", ⟨Level.Low, Level.High, Level.Low, Level.Low⟩),
    ("FR", ⟨Level.Low, Level.High, Level.High, Level.Low⟩),
    ("OR", ⟨Level.Low, Level.Low, Level.High, Level.Low⟩),
    ("RR", ⟨Level.High, Level.Low, Level.High, Level.Low⟩),
    ("RO", ⟨Level.High, Level.Low, Level.Low, Level.Low⟩),
    ("RF", ⟨Level.High, Level.Low, Level.Low, Level.High⟩),
    ("OF", ⟨Level.Low, Level.Low, Level.Low, Level.High⟩) ]

/-- Specification mapper: the row of the table for a listed token, the fail-safe
pattern for every other string. -/
def mappingTable (c : String) : Pins :=
  match mappingRows.lookup c with
  | some p => p
  | none => allLow

/-! ## Shape of the two threads' statement sequences -/

/-- The two kinds of loop iteration of the specification. -/
inductive Iteration where
  | woken (command : String)
  | timedOut
deriving DecidableEq, Repr

/-- The statements of one iteration as the specification lists them: one wait,
one clearing of the flag, on the woken branch the read of the current command,
one application of a pattern, one write of the applied pattern. -/
def Iteration.ops : Iteration → List Op
  | Iteration.woken c =>
      [Op.wait_for true, Op.engineCommandArrived false, Op.getEngineCommandNow c,
       Op.pinWrites (mappingTable c), Op.setEngines c]
  | Iteration.timedOut =>
      [Op.wait_for false, Op.engineCommandArrived false, Op.pinWrites allLow,
       Op.setEngines "OO"]

/-- Statements of a sequence of completed iterations. -/
def iterationsOps : List Iteration → List Op
  | [] => []
  | it :: rest => it.ops ++ iterationsOps rest

/-- Statements already executed in the iteration in progress at a position of
the control loop. -/
def pendingOps : ControlPc → List Op
  | ControlPc.waiting => []
  | ControlPc.wokenClear => [Op.wait_for true]
  | ControlPc.wokenRead => [Op.wait_for true, Op.engineCommandArrived false]
  | ControlPc.wokenPins c =>
      [Op.wait_for true, Op.engineCommandArrived false, Op.getEngineCommandNow c]
  | ControlPc.wokenRecord c =>
      [Op.wait_for true, Op.engineCommandArrived false, Op.getEngineCommandNow c,
       Op.pinWrites (mappingTable c)]
  | ControlPc.timeoutClear => [Op.wait_for false]
  | ControlPc.timeoutPins => [Op.wait_for false, Op.engineCommandArrived false]
  | ControlPc.timeoutRecord =>
      [Op.wait_for false, Op.engineCommandArrived false, Op.pinWrites allLow]

/-- The iteration in progress at a position of the control loop (at the loop
head none has started yet; any kind will do). -/
def currentIteration : ControlPc → Iteration
  | ControlPc.waiting => Iteration.timedOut
  | ControlPc.wokenClear => Iteration.woken ""
  | ControlPc.wokenRead => Iteration.woken ""
  | ControlPc.wokenPins c => Iteration.woken c
  | ControlPc.wokenRecord c => Iteration.woken c
  | ControlPc.timeoutClear => Iteration.timedOut
  | ControlPc.timeoutPins => Iteration.timedOut
  | ControlPc.timeoutRecord => Iteration.timedOut

/-- Statements of a sequence of completed runs of message_arrived. -/
def handledOps : List String → List Op
  | [] => []
  | payload :: rest =>
      [Op.setEnginesCommand payload, Op.engineCommandArrived true, Op.notify_all]
        ++ handledOps rest

/-- Statements already executed by the run of message_arrived in progress. -/
def pendingHandlerOps : IngressPc → List Op
  | IngressPc.idle => []
  | IngressPc.raiseFlag payload => [Op.setEnginesCommand payload]
  | IngressPc.notify payload => [Op.setEnginesCommand payload, Op.engineCommandArrived true]

/-- The control loop's statement sequence is a sequence of completed iterations
followed by the part executed of the iteration in progress. -/
def ControlShape (s : System) : Prop :=
  ∃ completed : List Iteration,
    s.controlLog = iterationsOps completed ++ pendingOps s.control

/-- The handler's statement sequence is a sequence of completed runs followed by
the part executed of the run in progress. -/
def HandlerShape (s : System) : Prop :=
  ∃ handled : List String,
    s.ingressLog = handledOps handled ++ pendingHandlerOps s.ingress

/-- At the loop head after at least one iteration the lines show the table row of
the recorded applied pattern; just before the record is written they show the
pattern about to be recorded. -/
def PinsRecorded (s : System) : Prop :=
  match s.control with
  | ControlPc.waiting =>
      s.controlLog = [] ∨ s.world.pins = mappingTable s.world.platform.enginesNow
  | ControlPc.wokenRecord c => s.world.pins = mappingTable c
  | ControlPc.timeoutRecord => s.world.pins = allLow
  | _ => True

/-! ## Theorems -/

/-! ### Lookup in the table -/

theorem lookup_cons_ne {β : Type} (c k : String) (v : β) (l : List (String × β))
    (h : ¬ c = k) : List.lookup c ((k, v) :: l) = List.lookup c l := by
  have hb : (c == k) = false := by simpa using h
  simp [List.lookup_cons, hb]

theorem lookup_cons_self {β : Type} (c : String) (v : β) (l : List (String × β)) :
    List.lookup c ((c, v) :: l) = some v := by
  simp [List.lookup_cons]

theorem commandPins_eq_mappingTable (pins : Pins) (c : String) :
    commandPins pins c = mappingTable c := by
  unfold commandPins mappingTable mappingRows
  split_ifs with h1 h2 h3 h4 h5 h6 h7 h8 h9
  · subst h1; rfl
  · subst h2; rfl
  · subst h3; rfl
  · subst h4; rfl
  · subst h5; rfl
  · subst h6; rfl
  · subst h7; rfl
  · subst h8; rfl
  · subst h9; rfl
  · rw [lookup_cons_ne c _ _ _ h1, lookup_cons_ne c _ _ _ h2, lookup_cons_ne c _ _ _ h3,
      lookup_cons_ne c _ _ _ h4, lookup_cons_ne c _ _ _ h5, lookup_cons_ne c _ _ _ h6,
      lookup_cons_ne c _ _ _ h7, lookup_cons_ne c _ _ _ h8, lookup_cons_ne c _ _ _ h9]
    rfl

theorem commandPins_of_unlisted (pins : Pins) (c : String)
    (hc : c ∉ ["OO", "FF", "FO", "FR", "OR", "RR", "RO", "RF", "OF"]) :
    commandPins pins c = ⟨Level.Low, Level.Low, Level.Low, Level.Low⟩ := by
  simp only [List.mem_cons, List.mem_singleton, List.not_mem_nil, or_false, not_or] at hc
  obtain ⟨h1, h2, h3, h4, h5, h6, h7, h8, h9⟩ := hc
  unfold commandPins
  rw [if_neg h1, if_neg h2, if_neg h3, if_neg h4, if_neg h5, if_neg h6, if_neg h7, if_neg h8,
    if_neg h9]
  rfl

theorem timeoutPins_eq_allLow (pins : Pins) : timeoutPins pins = allLow := rfl

theorem mappingTable_OO : mappingTable "OO" = allLow := by decide

/-! ### C1: the mapper -/

/-- C1: for every command string and every prior level of the four lines, the
pin writes gpioControl performs for the command leave the lines at the row of
the mapping table for that command, and at all-low for a string outside the
table; the result does not depend on the prior levels. -/
theorem gpioControl_pins_follow_table (pins : Pins) (c : String) :
    commandPins pins c = mappingTable c ∧
    mappingTable "OO" = ⟨Level.Low, Level.Low, Level.Low, Level.Low⟩ ∧
    mappingTable "FF" = ⟨Level.Low, Level.High, Level.Low, Level.High⟩ ∧
    mappingTable "FO" = ⟨Level.Low, Level.High, Level.Low, Level.Low⟩ ∧
    mappingTable "FR" = ⟨Level.Low, Level.High, Level.High, Level.Low⟩ ∧
    mappingTable "OR" = ⟨Level.Low, Level.Low, Level.High, Level.Low⟩ ∧
    mappingTable "RR" = ⟨Level.High, Level.Low, Level.High, Level.Low⟩ ∧
    mappingTable "RO" = ⟨Level.High, Level.Low, Level.Low, Level.Low⟩ ∧
    mappingTable "RF" = ⟨Level.High, Level.Low, Level.Low, Level.High⟩ ∧
    mappingTable "OF" = ⟨Level.Low, Level.Low, Level.Low, Level.High⟩ ∧
    (c ∉ ["OO", "FF", "FO", "FR", "OR", "RR", "RO", "RF", "OF"] →
      commandPins pins c = ⟨Level.Low, Level.Low, Level.Low, Level.Low⟩) := by
  refine ⟨commandPins_eq_mappingTable pins c, by decide, by decide, by decide, by decide,
    by decide, by decide, by decide, by decide, by decide, ?_⟩
  exact commandPins_of_unlisted pins c

/-! ### C3: the shared command state -/

/-- C3: for every state and every string, setEnginesCommand moves the current
command to the previous one and stores the argument as current, leaves the
arrived flag and the applied pattern as they were, and the two getters then
return exactly these two values. -/
theorem setEnginesCommand_shifts_history (p : Platform) (cmd : String) :
    (p.setEnginesCommand cmd).enginesCommandLast = p.enginesCommandNow ∧
    (p.setEnginesCommand cmd).enginesCommandNow = cmd ∧
    (p.setEnginesCommand cmd).engineCommandFlag = p.engineCommandFlag ∧
    (p.setEnginesCommand cmd).enginesNow = p.enginesNow ∧
    (p.setEnginesCommand cmd).getEngineCommandNow = cmd ∧
    (p.setEnginesCommand cmd).getEngineCommandLast = p.getEngineCommandNow :=
  ⟨rfl, rfl, rfl, rfl, rfl, rfl⟩

/-! ### C2, C8, C9: one iteration of the control loop -/

/-- C2: a control-loop iteration whose wait times out sets all four lines low,
records "OO" as the applied pattern, leaves the arrived flag false and leaves
the current and previous command untouched, whatever the current command is. -/
theorem timed_out_iteration_fail_safe (w : World) (h : wait_for w = false) :
    (gpioControlIteration w).pins = ⟨Level.Low, Level.Low, Level.Low, Level.Low⟩ ∧
    (gpioControlIteration w).platform.enginesNow = "OO" ∧
    (gpioControlIteration w).platform.getEngineCommandFlag = false ∧
    (gpioControlIteration w).platform.getEngineCommandNow = w.platform.getEngineCommandNow ∧
    (gpioControlIteration w).platform.getEngineCommandLast =
      w.platform.getEngineCommandLast := by
  unfold gpioControlIteration
  rw [h]
  exact ⟨rfl, rfl, rfl, rfl, rfl⟩

/-- Witness for C2: after "FF" was applied (lines Low, High, Low, High) no command
is pending, and one timed-out iteration gives all-low lines and applied pattern
"OO" while the current command still is "FF". -/
theorem timed_out_iteration_fail_safe_witness :
    afterFF.pins = ⟨Level.Low, Level.High, Level.Low, Level.High⟩ ∧
    afterFF.platform.getEngineCommandNow = "FF" ∧
    wait_for afterFF = false ∧
    ((gpioControlIteration afterFF).pins = ⟨Level.Low, Level.Low, Level.Low, Level.Low⟩ ∧
     (gpioControlIteration afterFF).platform.enginesNow = "OO" ∧
     (gpioControlIteration afterFF).platform.getEngineCommandFlag = false ∧
     (gpioControlIteration afterFF).platform.getEngineCommandNow =
       afterFF.platform.getEngineCommandNow ∧
     (gpioControlIteration afterFF).platform.getEngineCommandLast =
       afterFF.platform.getEngineCommandLast) :=
  ⟨by decide, by decide, by decide, timed_out_iteration_fail_safe afterFF (by decide)⟩

/-- C8: from a state with the arrived flag set and current command c, one
iteration ends with the flag cleared, the four lines at the table row of c
(all-low when c is not in the table), the applied pattern equal to c, and the
current and previous command untouched. -/
theorem woken_iteration_applies_current (w : World) (c : String)
    (harrived : wait_for w = true) (hc : w.platform.getEngineCommandNow = c) :
    (gpioControlIteration w).platform.getEngineCommandFlag = false ∧
    (gpioControlIteration w).pins = mappingTable c ∧
    (c ∉ ["OO", "FF", "FO", "FR", "OR", "RR", "RO", "RF", "OF"] →
      (gpioControlIteration w).pins = ⟨Level.Low, Level.Low, Level.Low, Level.Low⟩) ∧
    (gpioControlIteration w).platform.enginesNow = c ∧
    (gpioControlIteration w).platform.getEngineCommandNow = c ∧
    (gpioControlIteration w).platform.getEngineCommandLast =
      w.platform.getEngineCommandLast := by
  unfold gpioControlIteration
  rw [harrived]
  subst hc
  refine ⟨rfl, commandPins_eq_mappingTable _ _, ?_, rfl, rfl, rfl⟩
  exact commandPins_of_unlisted _ _

/-- Witness for C8: "XX" arriving on the initial state, all lines high, gives
all-low lines, applied pattern "XX", current command "XX" and previous
command "OO". -/
theorem woken_iteration_applies_current_witness :
    wait_for arrivedXX = true ∧ arrivedXX.platform.getEngineCommandNow = "XX" ∧
    (gpioControlIteration arrivedXX).pins = ⟨Level.Low, Level.Low, Level.Low, Level.Low⟩ ∧
    (gpioControlIteration arrivedXX).platform.enginesNow = "XX" ∧
    (gpioControlIteration arrivedXX).platform.getEngineCommandNow = "XX" ∧
    (gpioControlIteration arrivedXX).platform.getEngineCommandLast = "OO" ∧
    (gpioControlIteration arrivedXX).platform.getEngineCommandFlag = false :=
  have h := woken_iteration_applies_current arrivedXX "XX" (by decide) (by decide)
  ⟨by decide, by decide, h.2.2.1 (by decide), h.2.2.2.1, h.2.2.2.2.1,
    h.2.2.2.2.2.trans (by decide), h.1⟩

/-- C9: after a completed iteration, whichever branch it took and whatever the
state before it, the four lines are at the table row of the recorded applied
pattern, and the applied pattern is the current command read in that iteration
(woken branch) or the fail-safe token "OO" (timeout branch). -/
theorem pins_match_applied_pattern (w : World) :
    (gpioControlIteration w).pins = mappingTable (gpioControlIteration w).platform.enginesNow ∧
    (gpioControlIteration w).platform.enginesNow =
      (if wait_for w then w.platform.getEngineCommandNow else "OO") ∧
    ((gpioControlIteration w).platform.enginesNow = w.platform.getEngineCommandNow ∨
     (gpioControlIteration w).platform.enginesNow = "OO") := by
  unfold gpioControlIteration
  cases hw : wait_for w
  · exact ⟨(timeoutPins_eq_allLow _).trans mappingTable_OO.symm, rfl, Or.inr rfl⟩
  · exact ⟨commandPins_eq_mappingTable _ _, rfl, Or.inl rfl⟩

/-! ### C7, C10: sequences of submissions -/

/-- C7: submitting the same token twice in a row, each time a message arrival
followed by a woken iteration, gives the same pattern on the four lines both
times, the table row of the token, and afterwards the previous and the current
command both equal the token. -/
theorem same_token_twice (w : World) (t : String) :
    wait_for (message_arrived w t) = true ∧
    wait_for (message_arrived (submit w t) t) = true ∧
    (submit w t).pins = mappingTable t ∧
    (submit (submit w t) t).pins = mappingTable t ∧
    (submit (submit w t) t).pins = (submit w t).pins ∧
    (submit (submit w t) t).platform.getEngineCommandLast = t ∧
    (submit (submit w t) t).platform.getEngineCommandNow = t := by
  have h1 : (submit w t).pins = mappingTable t := commandPins_eq_mappingTable _ _
  have h2 : (submit (submit w t) t).pins = mappingTable t := commandPins_eq_mappingTable _ _
  exact ⟨rfl, rfl, h1, h2, h2.trans h1.symm, rfl, rfl⟩

/-- Counterexample to C4 as stated: after a connection loss and exactly five
consecutive reported failures the process has not exited; it is still running
with the counter at 5 and has issued its sixth connect request. -/
theorem five_failures_still_running :
    lostThenFailures ⟨0, 0⟩ 5 = Process.running ⟨5, 6⟩ ∧
    lostThenFailures ⟨0, 0⟩ 5 ≠ Process.exited 1 := by
  decide

/-- C4, amended: starting from a connection-lost event, with every connect
request accepted, after any number k of consecutive reported failures up to 5
the process is still running and has issued another connect request after each
of them (k + 1 since the loss); the sixth consecutive failure terminates the
process with exit code 1. -/
theorem reconnect_bound (cb : callback) (k : Nat) (hk : k ≤ 5) :
    lostThenFailures cb k = Process.running ⟨k, cb.connectRequests + 1 + k⟩ ∧
    lostThenFailures cb 6 = Process.exited 1 := by
  have h6 : lostThenFailures cb 6 = Process.exited 1 := by
    simp [lostThenFailures, reportFailures, callback.connection_lost, callback.reconnect,
      callback.on_failure, N_RETRY_ATTEMPTS, List.replicate]
  refine ⟨?_, h6⟩
  interval_cases k <;>
    simp [lostThenFailures, reportFailures, callback.connection_lost, callback.reconnect,
      callback.on_failure, N_RETRY_ATTEMPTS, List.replicate]

/-- Witness for the amended C4 at a fresh callback and k = 3. -/
theorem reconnect_bound_witness :
    (3 : Nat) ≤ 5 ∧
    lostThenFailures ⟨0, 0⟩ 3 = Process.running ⟨3, 4⟩ ∧
    lostThenFailures ⟨0, 0⟩ 6 = Process.exited 1 :=
  ⟨by decide, reconnect_bound ⟨0, 0⟩ 3 (by decide)⟩

/-! ### Shape of the statement sequences under every schedule -/

theorem iterationsOps_append (xs ys : List Iteration) :
    iterationsOps (xs ++ ys) = iterationsOps xs ++ iterationsOps ys := by
  induction xs with
  | nil => rfl
  | cons x xs ih => simp [iterationsOps, ih]

theorem handledOps_append (xs ys : List String) :
    handledOps (xs ++ ys) = handledOps xs ++ handledOps ys := by
  induction xs with
  | nil => rfl
  | cons x xs ih => simp [handledOps, ih]

theorem controlShape_controlStep (s : System) (h : ControlShape s) :
    ControlShape (controlStep s) := by
  obtain ⟨done, hlog⟩ := h
  unfold controlStep
  cases hpc : s.control with
  | waiting =>
      rw [hpc] at hlog
      cases hf : s.world.platform.getEngineCommandFlag <;>
        exact ⟨done, by simp [hlog, hf, pendingOps]⟩
  | wokenClear => rw [hpc] at hlog; exact ⟨done, by simp [hlog, pendingOps]⟩
  | wokenRead => rw [hpc] at hlog; exact ⟨done, by simp [hlog, pendingOps]⟩
  | wokenPins c =>
      rw [hpc] at hlog
      exact ⟨done, by simp [hlog, pendingOps, commandPins_eq_mappingTable]⟩
  | wokenRecord c =>
      rw [hpc] at hlog
      exact ⟨done ++ [Iteration.woken c], by
        simp [hlog, pendingOps, iterationsOps_append, iterationsOps, Iteration.ops]⟩
  | timeoutClear => rw [hpc] at hlog; exact ⟨done, by simp [hlog, pendingOps]⟩
  | timeoutPins =>
      rw [hpc] at hlog
      exact ⟨done, by simp [hlog, pendingOps, timeoutPins_eq_allLow]⟩
  | timeoutRecord =>
      rw [hpc] at hlog
      exact ⟨done ++ [Iteration.timedOut], by
        simp [hlog, pendingOps, iterationsOps_append, iterationsOps, Iteration.ops]⟩

theorem controlShape_deliverStep (s : System) (payload : String) (h : ControlShape s) :
    ControlShape (deliverStep s payload) := by
  unfold deliverStep
  cases hpc : s.ingress <;> exact h

theorem controlShape_handlerStep (s : System) (h : ControlShape s) :
    ControlShape (handlerStep s) := by
  unfold handlerStep
  cases hpc : s.ingress <;> exact h

theorem controlShape_step (s : System) (a : Action) (h : ControlShape s) :
    ControlShape (step s a) := by
  cases a with
  | deliver payload => exact controlShape_deliverStep s payload h
  | handler => exact controlShape_handlerStep s h
  | loop => exact controlShape_controlStep s h

theorem controlShape_run (schedule : List Action) (s : System) (h : ControlShape s) :
    ControlShape (run s schedule) := by
  induction schedule generalizing s with
  | nil => exact h
  | cons a rest ih => exact ih (step s a) (controlShape_step s a h)

theorem controlShape_start (w : World) : ControlShape (System.start w) := ⟨[], rfl⟩

theorem handlerShape_step (s : System) (a : Action) (h : HandlerShape s) :
    HandlerShape (step s a) := by
  obtain ⟨done, hlog⟩ := h
  cases a with
  | deliver payload =>
      show HandlerShape (deliverStep s payload)
      unfold deliverStep
      cases hpc : s.ingress with
      | idle => rw [hpc] at hlog; exact ⟨done, by simp [hlog, pendingHandlerOps]⟩
      | raiseFlag p => exact ⟨done, by simp [hlog, hpc]⟩
      | notify p => exact ⟨done, by simp [hlog, hpc]⟩
  | handler =>
      show HandlerShape (handlerStep s)
      unfold handlerStep
      cases hpc : s.ingress with
      | idle => exact ⟨done, by simp [hlog, hpc]⟩
      | raiseFlag p => rw [hpc] at hlog; exact ⟨done, by simp [hlog, pendingHandlerOps]⟩
      | notify p =>
          rw [hpc] at hlog
          exact ⟨done ++ [p], by
            simp [hlog, pendingHandlerOps, handledOps_append, handledOps]⟩
  | loop =>
      show HandlerShape (controlStep s)
      unfold controlStep
      cases hpc : s.control <;> exact ⟨done, hlog⟩

theorem handlerShape_run (schedule : List Action) (s : System) (h : HandlerShape s) :
    HandlerShape (run s schedule) := by
  induction schedule generalizing s with
  | nil => exact h
  | cons a rest ih => exact ih (step s a) (handlerShape_step s a h)

theorem handlerShape_start (w : World) : HandlerShape (System.start w) := ⟨[], rfl⟩

/-! ### Pins and applied pattern under every schedule -/

theorem pinsRecorded_step (s : System) (a : Action) (h : PinsRecorded s) :
    PinsRecorded (step s a) := by
  cases a with
  | deliver payload =>
      show PinsRecorded (deliverStep s payload)
      unfold deliverStep
      cases hi : s.ingress
      · unfold PinsRecorded at h ⊢
        cases hc : s.control <;> simp_all [Platform.setEnginesCommand]
      · exact h
      · exact h
  | handler =>
      show PinsRecorded (handlerStep s)
      unfold handlerStep
      cases hi : s.ingress
      · exact h
      · unfold PinsRecorded at h ⊢
        cases hc : s.control <;> simp_all [Platform.engineCommandArrived]
      · unfold PinsRecorded at h ⊢
        cases hc : s.control <;> simp_all
  | loop =>
      show PinsRecorded (controlStep s)
      unfold PinsRecorded at h
      unfold controlStep PinsRecorded
      cases hc : s.control
      · cases hf : s.world.platform.getEngineCommandFlag <;> simp
      all_goals simp_all [Platform.setEngines, commandPins_eq_mappingTable,
        timeoutPins_eq_allLow, mappingTable_OO]

theorem pinsRecorded_run (schedule : List Action) (s : System) (h : PinsRecorded s) :
    PinsRecorded (run s schedule) := by
  induction schedule generalizing s with
  | nil => exact h
  | cons a rest ih => exact ih (step s a) (pinsRecorded_step s a h)

theorem applied_pattern_shown_at_loop_head (w : World) (schedule : List Action)
    (hhead : (run (System.start w) schedule).control = ControlPc.waiting)
    (hran : (run (System.start w) schedule).controlLog ≠ []) :
    (run (System.start w) schedule).world.pins =
      mappingTable (run (System.start w) schedule).world.platform.enginesNow := by
  have h := pinsRecorded_run schedule (System.start w) (Or.inl rfl)
  unfold PinsRecorded at h
  rw [hhead] at h
  rcases h with h | h
  · exact absurd h hran
  · exact h

/-! ### Where the flag writes and the pin writes sit in the sequences -/

theorem clear_in_pending (pc : ControlPc) (pre post : List Op) (b : Bool)
    (h : pendingOps pc = pre ++ Op.engineCommandArrived b :: post) :
    b = false ∧ ∃ pre0 r, pre = pre0 ++ [Op.wait_for r] ∧
      ∀ e post0, post = e :: post0 →
        (r = true → ∃ c, e = Op.getEngineCommandNow c) ∧
        (r = false → ∃ p, e = Op.pinWrites p) := by
  cases pc <;> simp [pendingOps, List.cons_eq_append_iff] at h
  all_goals
    obtain ⟨a, rfl, rfl, rfl, rfl⟩ := h
    exact ⟨rfl, [], _, rfl, by simp⟩

theorem clear_in_shape (completed : List Iteration) (pc : ControlPc) (pre post : List Op)
    (b : Bool)
    (h : iterationsOps completed ++ pendingOps pc = pre ++ Op.engineCommandArrived b :: post) :
    b = false ∧ ∃ pre0 r, pre = pre0 ++ [Op.wait_for r] ∧
      ∀ e post0, post = e :: post0 →
        (r = true → ∃ c, e = Op.getEngineCommandNow c) ∧
        (r = false → ∃ p, e = Op.pinWrites p) := by
  induction completed generalizing pre with
  | nil => exact clear_in_pending pc pre post b (by simpa [iterationsOps] using h)
  | cons it rest ih =>
      cases it with
      | woken c =>
          simp [iterationsOps, Iteration.ops, List.cons_eq_append_iff] at h
          obtain ⟨a, rfl, h⟩ := h
          rcases h with ⟨rfl, rfl, rfl⟩ | ⟨a1, rfl, a2, rfl, a3, rfl, a4, rfl, h⟩
          · exact ⟨rfl, [], true, rfl, by simp⟩
          · obtain ⟨hb, pre0, r, rfl, hnext⟩ := ih a4 h
            exact ⟨hb, (Iteration.woken c).ops ++ pre0, r, by simp [Iteration.ops], hnext⟩
      | timedOut =>
          simp [iterationsOps, Iteration.ops, List.cons_eq_append_iff] at h
          obtain ⟨a, rfl, h⟩ := h
          rcases h with ⟨rfl, rfl, rfl⟩ | ⟨a1, rfl, a2, rfl, a3, rfl, h⟩
          · exact ⟨rfl, [], false, rfl, by simp⟩
          · obtain ⟨hb, pre0, r, rfl, hnext⟩ := ih a3 h
            exact ⟨hb, Iteration.timedOut.ops ++ pre0, r, by simp [Iteration.ops], hnext⟩

theorem raise_in_handler_shape (handled : List String) (pc : IngressPc) (pre post : List Op)
    (b : Bool)
    (h : handledOps handled ++ pendingHandlerOps pc = pre ++ Op.engineCommandArrived b :: post) :
    b = true ∧ ∃ pre0 c, pre = pre0 ++ [Op.setEnginesCommand c] := by
  induction handled generalizing pre with
  | nil =>
      cases pc <;> simp [handledOps, pendingHandlerOps, List.cons_eq_append_iff] at h
      obtain ⟨a, rfl, rfl, rfl, rfl⟩ := h
      exact ⟨rfl, [], _, rfl⟩
  | cons m rest ih =>
      simp [handledOps, List.cons_eq_append_iff] at h
      obtain ⟨a, rfl, h⟩ := h
      rcases h with ⟨rfl, rfl, rfl⟩ | ⟨a1, rfl, a2, rfl, h⟩
      · exact ⟨rfl, [], m, rfl⟩
      · obtain ⟨hb, pre0, c, rfl⟩ := ih a2 h
        exact ⟨hb, [Op.setEnginesCommand m, Op.engineCommandArrived true, Op.notify_all] ++ pre0,
          c, by simp⟩

theorem wait_before_pins_in_shape (completed : List Iteration) (pc : ControlPc)
    (mid post : List Op) (q : Pins)
    (h : iterationsOps completed ++ pendingOps pc = mid ++ Op.pinWrites q :: post) :
    ∃ r, Op.wait_for r ∈ mid := by
  cases completed with
  | nil =>
      cases pc <;> simp [iterationsOps, pendingOps, List.cons_eq_append_iff] at h
      all_goals
        obtain ⟨a, rfl, _⟩ := h
        exact ⟨_, List.mem_cons_self _ _⟩
  | cons it rest =>
      cases it <;> simp [iterationsOps, Iteration.ops, List.cons_eq_append_iff] at h
      all_goals
        obtain ⟨a, rfl, _⟩ := h
        exact ⟨_, List.mem_cons_self _ _⟩

theorem wait_between_pins_in_shape (completed : List Iteration) (pc : ControlPc)
    (pre mid post : List Op) (p q : Pins)
    (h : iterationsOps completed ++ pendingOps pc =
      pre ++ Op.pinWrites p :: (mid ++ Op.pinWrites q :: post)) :
    ∃ r, Op.wait_for r ∈ mid := by
  induction completed generalizing pre with
  | nil =>
      cases pc <;> simp [iterationsOps, pendingOps, List.cons_eq_append_iff] at h
  | cons it rest ih =>
      cases it with
      | woken c =>
          simp only [iterationsOps, Iteration.ops, List.cons_append, List.nil_append] at h
          rcases pre with _ | ⟨x1, _ | ⟨x2, _ | ⟨x3, _ | ⟨x4, _ | ⟨x5, pre5⟩⟩⟩⟩⟩
          all_goals simp at h
          · obtain ⟨-, -, -, -, h⟩ := h
            rcases mid with _ | ⟨y, mid1⟩
            · simp at h
            · simp at h
              obtain ⟨r, hr⟩ := wait_before_pins_in_shape rest pc mid1 post q h.2
              exact ⟨r, List.mem_cons_of_mem _ hr⟩
          · exact ih pre5 h.2.2.2.2.2
      | timedOut =>
          simp only [iterationsOps, Iteration.ops, List.cons_append, List.nil_append] at h
          rcases pre with _ | ⟨x1, _ | ⟨x2, _ | ⟨x3, _ | ⟨x4, pre4⟩⟩⟩⟩
          all_goals simp at h
          · obtain ⟨-, -, -, h⟩ := h
            rcases mid with _ | ⟨y, mid1⟩
            · simp at h
            · simp at h
              obtain ⟨r, hr⟩ := wait_before_pins_in_shape rest pc mid1 post q h.2
              exact ⟨r, List.mem_cons_of_mem _ hr⟩
          · exact ih pre4 h.2.2.2.2

theorem pendingOps_started_part (pc : ControlPc) :
    pendingOps pc <+: (currentIteration pc).ops ∧ pendingOps pc ≠ (currentIteration pc).ops := by
  cases pc <;> simp [pendingOps, currentIteration, Iteration.ops, List.prefix_cons_iff]

theorem flag_change_is_logged (s : System) (a : Action)
    (h : (step s a).world.platform.getEngineCommandFlag ≠ s.world.platform.getEngineCommandFlag) :
    ((step s a).world.platform.getEngineCommandFlag = true ∧
      (step s a).ingressLog = s.ingressLog ++ [Op.engineCommandArrived true] ∧
      (step s a).controlLog = s.controlLog) ∨
    ((step s a).world.platform.getEngineCommandFlag = false ∧
      (step s a).controlLog = s.controlLog ++ [Op.engineCommandArrived false] ∧
      (step s a).ingressLog = s.ingressLog) := by
  cases a with
  | deliver payload =>
      simp only [step, deliverStep] at h ⊢
      cases hpc : s.ingress <;> simp [hpc, Platform.setEnginesCommand,
        Platform.getEngineCommandFlag] at h
  | handler =>
      simp only [step, handlerStep] at h ⊢
      cases hpc : s.ingress <;> simp [hpc, Platform.engineCommandArrived,
        Platform.getEngineCommandFlag] at h ⊢
  | loop =>
      simp only [step, controlStep] at h ⊢
      cases hpc : s.control <;> simp [hpc, Platform.engineCommandArrived,
        Platform.setEngines, Platform.getEngineCommandFlag] at h ⊢

/-! ### C5: the arrived flag -/

/-- Counterexample to C5 as stated: in the woken branch the loop clears the flag
before it reads the current command, and in the timeout branch it clears the
flag without reading the current command at all, so a clearing of the flag is
not directly preceded by the loop's read of the current command. -/
theorem clear_not_preceded_by_read :
    (run (System.start (World.initial allLow))
        [Action.deliver "FF", Action.handler, Action.handler,
         Action.loop, Action.loop, Action.loop]).controlLog =
      [Op.wait_for true, Op.engineCommandArrived false, Op.getEngineCommandNow "FF"] ∧
    (run (System.start (World.initial allLow))
        [Action.loop, Action.loop, Action.loop, Action.loop]).controlLog =
      [Op.wait_for false, Op.engineCommandArrived false, Op.pinWrites allLow,
       Op.setEngines "OO"] ∧
    ¬ (∀ pre post : List Op,
        (run (System.start (World.initial allLow)) [Action.loop, Action.loop]).controlLog =
          pre ++ Op.engineCommandArrived false :: post →
        ∃ pre0 c, pre = pre0 ++ [Op.getEngineCommandNow c]) := by
  refine ⟨by decide, by decide, ?_⟩
  intro hall
  obtain ⟨pre0, c, hpre⟩ := hall [Op.wait_for false] [] (by decide)
  have hlast := congrArg List.getLast? hpre
  simp at hlast

/-- C5, amended: under every schedule of the handler and the control loop, (1) the
value of the flag changes only through an engineCommandArrived call, to true in
the handler and to false in the control loop; (2) every engineCommandArrived of
the handler passes true and directly follows the handler's setEnginesCommand;
(3) every engineCommandArrived of the control loop passes false and directly
follows the return of the loop's wait, and whatever the loop does next is the
read of the current command when the wait reported a command and the pin writes
when it timed out. -/
theorem arrived_flag_discipline (w : World) (schedule : List Action) :
    (∀ (s : System) (a : Action),
      (step s a).world.platform.getEngineCommandFlag ≠ s.world.platform.getEngineCommandFlag →
      ((step s a).world.platform.getEngineCommandFlag = true ∧
        (step s a).ingressLog = s.ingressLog ++ [Op.engineCommandArrived true] ∧
        (step s a).controlLog = s.controlLog) ∨
      ((step s a).world.platform.getEngineCommandFlag = false ∧
        (step s a).controlLog = s.controlLog ++ [Op.engineCommandArrived false] ∧
        (step s a).ingressLog = s.ingressLog)) ∧
    (∀ (pre post : List Op) (b : Bool),
      (run (System.start w) schedule).ingressLog = pre ++ Op.engineCommandArrived b :: post →
      b = true ∧ ∃ pre0 c, pre = pre0 ++ [Op.setEnginesCommand c]) ∧
    (∀ (pre post : List Op) (b : Bool),
      (run (System.start w) schedule).controlLog = pre ++ Op.engineCommandArrived b :: post →
      b = false ∧ ∃ pre0 r, pre = pre0 ++ [Op.wait_for r] ∧
        ∀ e post0, post = e :: post0 →
          (r = true → ∃ c, e = Op.getEngineCommandNow c) ∧
          (r = false → ∃ p, e = Op.pinWrites p)) := by
  refine ⟨flag_change_is_logged, ?_, ?_⟩
  · intro pre post b h
    obtain ⟨handled, hlog⟩ := handlerShape_run schedule _ (handlerShape_start w)
    exact raise_in_handler_shape handled _ pre post b (hlog ▸ h)
  · intro pre post b h
    obtain ⟨completed, hlog⟩ := controlShape_run schedule _ (controlShape_start w)
    exact clear_in_shape completed _ pre post b (hlog ▸ h)

/-! ### C6: one pattern per wait -/

/-- C6: under every schedule of the handler's and the control loop's statements,
the control loop's statement sequence is a sequence of whole iterations, each
one wait, one clearing of the flag, one pattern application and one write of
the applied pattern, followed by a proper initial part of one more iteration;
between two clearings of the flag and between two pattern applications there
is always a wait. -/
theorem one_pattern_per_wait (w : World) (schedule : List Action) :
    (∃ (completed : List Iteration) (current : Iteration) (started : List Op),
      (run (System.start w) schedule).controlLog = iterationsOps completed ++ started ∧
      started <+: current.ops ∧ started ≠ current.ops) ∧
    (∀ (pre mid post : List Op),
      (run (System.start w) schedule).controlLog =
        pre ++ Op.engineCommandArrived false :: (mid ++ Op.engineCommandArrived false :: post) →
      ∃ r, Op.wait_for r ∈ mid) ∧
    (∀ (pre mid post : List Op) (p q : Pins),
      (run (System.start w) schedule).controlLog =
        pre ++ Op.pinWrites p :: (mid ++ Op.pinWrites q :: post) →
      ∃ r, Op.wait_for r ∈ mid) := by
  obtain ⟨completed, hlog⟩ := controlShape_run schedule _ (controlShape_start w)
  refine ⟨⟨completed, currentIteration _, pendingOps _, hlog,
    (pendingOps_started_part _).1, (pendingOps_started_part _).2⟩, ?_, ?_⟩
  · intro pre mid post h
    have h2 : iterationsOps completed ++ pendingOps (run (System.start w) schedule).control =
        (pre ++ Op.engineCommandArrived false :: mid) ++ Op.engineCommandArrived false :: post := by
      rw [← hlog, h]; simp
    obtain ⟨-, pre0, r, hpre, -⟩ := clear_in_shape completed _ _ post false h2
    rcases List.eq_nil_or_concat mid with rfl | ⟨mid0, x, rfl⟩
    · have hlast := congrArg List.getLast? hpre
      simp at hlast
    · have hpre1 : (pre ++ Op.engineCommandArrived false :: mid0) ++ [x] =
          pre0 ++ [Op.wait_for r] := by simpa using hpre
      have hx : [x] = [Op.wait_for r] := List.append_inj_right' hpre1 rfl
      exact ⟨r, by simp [List.cons.inj hx |>.1]⟩
  · intro pre mid post p q h
    exact wait_between_pins_in_shape completed _ pre mid post p q (hlog ▸ h)

/-! ### A command that arrives while a timed-out iteration is under way -/

/-- A message that arrives after the wait has timed out and before the loop
clears the flag is stored as the current command, but the loop clears its flag
unseen: the fail-safe pattern is applied, and the next wait times out as well. -/
theorem command_arriving_during_timeout_is_dropped :
    (run (System.start (World.initial allLow))
        [Action.loop, Action.deliver "FF", Action.handler, Action.handler,
         Action.loop, Action.loop, Action.loop, Action.loop]).controlLog =
      [Op.wait_for false, Op.engineCommandArrived false, Op.pinWrites allLow,
       Op.setEngines "OO", Op.wait_for false] ∧
    (run (System.start (World.initial allLow))
        [Action.loop, Action.deliver "FF", Action.handler, Action.handler,
         Action.loop, Action.loop, Action.loop, Action.loop]).world.platform.enginesCommandNow
      = "FF" := by
  decide

end BB
